import Mathlib

/-!
Shallow embedding of the rcalc RPN calculator core (src/main.rs).

The calculator state is the operand stack, a sequence of exact rationals,
modelled as `List ℚ` with the HEAD of the list being the TOP of the stack
(Rust `Vec::push`/`Vec::pop` operate on the vector's end, which corresponds
to the list's head here).

The external `ramp` rational type is modelled by Lean's `ℚ`, which is always
kept in lowest terms, so ramp's in-place `normalize` (reduction to lowest
terms) is value-preserving and is modelled as the identity on values.
Division of rationals is exact; dividing by zero in ramp is a process fault
(the `Divide` arm of `compute` guards against it precisely to, as the
documentation puts it, avoid a division-by-zero fault); the unguarded
division in the `Exp` arm is therefore modelled as a fault outcome.
-/

set_option maxRecDepth 8000

/-- Tokens readable from the command line (enum `Token` in src/main.rs).
`Empty` is the clear-all token (written `%`), `Exp` the exponent token. -/
inductive Token where
  | Number : ℚ → Token
  | Minus : Token
  | Plus : Token
  | Times : Token
  | Divide : Token
  | Exp : Token
  | And : Token
  | Or : Token
  | Duplicate : Token
  | Drop : Token
  | Empty : Token
deriving DecidableEq, Repr

/-- Closed enumeration of the `Box<dyn Display>` messages the program can
produce: the three literal lexer messages, the wrapped radix-parse failure
description, the stack-exhaustion message of `Calculator::parse`, and the
"Incomplete expression, dropped stack" message of the `Duplicate` arm. -/
inductive ErrMsg where
  | unexpectedTrailing : ErrMsg
  | unexpectedEmpty : ErrMsg
  | unexpectedToken : ErrMsg
  | radixParse : ErrMsg
  | stackExhaustion : ErrMsg
  | incompleteExpr : ErrMsg
deriving DecidableEq, Repr

/-- Mirror of `TokenError`: a message plus a half-open byte span into the
originating line, `span = (start, end)`. -/
structure TokenError where
  message : ErrMsg
  span : Nat × Nat
deriving DecidableEq, Repr

/-- Result of lexing one fragment (`Result<Token, TokenError>`). -/
inductive LexRes where
  | ok : Token → LexRes
  | err : TokenError → LexRes
deriving DecidableEq, Repr

/-- Mirror of `unexpected_trailing_chars` (src/main.rs lines 31-44). -/
def unexpected_trailing_chars (from_ : List Char) (token : Token) (size : Nat) : LexRes :=
  if from_.length = size then .ok token
  else .err ⟨.unexpectedTrailing, (size, from_.length)⟩

/-- Numeric value of one digit character, or `none` if the character is not
a digit valid in the given radix. -/
def digitVal (radix : Nat) (c : Char) : Option Nat :=
  let v : Nat :=
    if '0' ≤ c ∧ c ≤ '9' then c.toNat - '0'.toNat
    else if 'a' ≤ c ∧ c ≤ 'z' then c.toNat - 'a'.toNat + 10
    else if 'A' ≤ c ∧ c ≤ 'Z' then c.toNat - 'A'.toNat + 10
    else radix
  if v < radix then some v else none

/-- Model of ramp's `Int::from_str_radix` on the digit strings this lexer can
pass it: an empty string or a string containing a character that is not a
digit of the radix fails; otherwise the digits are read in the given base.
Sign handling is not modelled; no fragment reaching this call here can carry
a meaningful sign and no claim depends on it. -/
def intFromStrRadix (radix : Nat) (s : List Char) : Option ℤ :=
  if s.isEmpty then none
  else s.foldl (fun acc c => acc.bind (fun n => (digitVal radix c).map (fun v => n * radix + v)))
    (some (0 : ℤ))

/-- The ten single-character operator arms of the `FromStr` match
(src/main.rs lines 54-63): the token each operator character selects. -/
def opToken : Char → Option Token
  | '%' => some .Empty
  | '!' => some .Drop
  | '<' => some .Duplicate
  | '^' => some .Exp
  | '/' => some .Divide
  | '*' => some .Times
  | '+' => some .Plus
  | '-' => some .Minus
  | '|' => some .Or
  | '&' => some .And
  | _ => none

/-- Mirror of `impl FromStr for Token` (src/main.rs lines 46-100): match on
the first character; the ten operator characters demand a one-character
fragment; a leading `0` selects hex (`0x`), binary (`0b`) or decimal; any
other leading ASCII digit selects decimal; anything else is an unexpected
token. Error spans are fragment-relative, as in the source. -/
def from_str (from_ : List Char) : LexRes :=
  match from_ with
  | [] => .err ⟨.unexpectedEmpty, (0, 0)⟩
  | c :: rest =>
    match opToken c with
    | some t => unexpected_trailing_chars from_ t 1
    | none =>
      if c = '0' then
        match rest with
        | 'x' :: _ =>
          match intFromStrRadix 16 (from_.drop 2) with
          | some n => .ok (.Number (n : ℚ))
          | none => .err ⟨.radixParse, (2, from_.length)⟩
        | 'b' :: _ =>
          match intFromStrRadix 2 (from_.drop 2) with
          | some n => .ok (.Number (n : ℚ))
          | none => .err ⟨.radixParse, (2, from_.length)⟩
        | _ =>
          match intFromStrRadix 10 from_ with
          | some n => .ok (.Number (n : ℚ))
          | none => .err ⟨.radixParse, (0, from_.length)⟩
      else if c.isDigit then
        match intFromStrRadix 10 from_ with
        | some n => .ok (.Number (n : ℚ))
        | none => .err ⟨.radixParse, (0, from_.length)⟩
      else .err ⟨.unexpectedToken, (0, from_.length)⟩

/-- Model of `str::split_whitespace` combined with `subslice_offset`
(src/main.rs lines 102-110, 113-123): walk the line accumulating the current
non-whitespace fragment (in reverse) together with the byte offset at which
it started, emitting `(offset, fragment)` pairs. A line is a `List Char`;
for the ASCII lines of every claim, char offsets coincide with Rust's byte
offsets. -/
def splitWSAux : List Char → Nat → Nat → List Char → List (Nat × List Char)
  | [], _, start, acc => if acc.isEmpty then [] else [(start, acc.reverse)]
  | c :: rest, i, start, acc =>
    if c.isWhitespace then
      (if acc.isEmpty then [] else [(start, acc.reverse)]) ++ splitWSAux rest (i + 1) (i + 1) []
    else if acc.isEmpty then splitWSAux rest (i + 1) i [c]
    else splitWSAux rest (i + 1) start (c :: acc)

/-- Whitespace-delimited fragments of a line, each with its start offset. -/
def splitWS (cs : List Char) : List (Nat × List Char) := splitWSAux cs 0 0 []

/-- Mirror of `Token::lex` (src/main.rs lines 112-124): lex every fragment
and remap each fragment-relative error span by the fragment's offset into
the original line. -/
def lex (line : List Char) : List LexRes :=
  (splitWS line).map (fun p =>
    match from_str p.2 with
    | .ok t => .ok t
    | .err e => .err ⟨e.message, (e.span.1 + p.1, e.span.2 + p.1)⟩)

/-- Result of collecting the lexed line (`collect::<Result<Vec<_>, _>>()`). -/
inductive ToksRes where
  | ok : List Token → ToksRes
  | err : TokenError → ToksRes
deriving DecidableEq, Repr

/-- Mirror of `collect::<Result<Vec<_>, _>>()`: the token list, or the first
lexical error. -/
def collectTokens : List LexRes → ToksRes
  | [] => .ok []
  | .err e :: _ => .err e
  | .ok t :: rest =>
    match collectTokens rest with
    | .ok ts => .ok (t :: ts)
    | .err e => .err e

/-- Value-level model of ramp's in-place `Rational::normalize` (reduction to
lowest terms): Lean rationals are always reduced, so it preserves the value
unchanged. -/
def normalizeRat (q : ℚ) : ℚ := q

/-- The final normalization pass of `Calculator::parse` over the stack. -/
def normalizeStack (s : List ℚ) : List ℚ := s.map normalizeRat

/-- Outcome of running `Calculator::compute`: a normal return with the
resulting stack, the `Err` return of the `Duplicate` arm together with the
stack as the mutation left it, or a process fault (Rust panic) from the
unguarded division by zero in the `Exp` arm. -/
inductive CompRes where
  | ok : List ℚ → CompRes
  | err : List ℚ → CompRes
  | fault : CompRes
deriving DecidableEq, Repr

/-- Common shape of the binary-operator arms of `Calculator::compute`:
pop `rhs`, pop `lhs`, and if both pops succeeded push `f lhs rhs`; if either
pop came up empty the popped value (if any) is discarded and nothing is
pushed, leaving the stack empty. -/
def binArm (f : ℚ → ℚ → ℚ) : List ℚ → List ℚ
  | rhs :: lhs :: rest => f lhs rhs :: rest
  | _ => []

/-- One iteration of the token loop of `Calculator::compute`
(src/main.rs lines 152-225), acting on the stack (head = top):
`Duplicate` pops, normalizes (value-preserving) and pushes twice, or
returns the "Incomplete expression" error on an empty stack; `Empty`
clears; `Drop` pops and discards; `Number` pushes; the arithmetic and
bitwise operators follow `binArm`; `Divide` pushes the rational zero when
`rhs` is zero; `Exp` divides unguarded, a fault when `rhs` is zero. -/
def computeStep (t : Token) (s : List ℚ) : CompRes :=
  match t with
  | .Duplicate =>
    match s with
    | num :: rest => .ok (normalizeRat num :: normalizeRat num :: rest)
    | [] => .err []
  | .Empty => .ok []
  | .Drop => .ok s.tail
  | .Number n => .ok (n :: s)
  | .Plus => .ok (binArm (fun lhs rhs => lhs + rhs) s)
  | .Minus => .ok (binArm (fun lhs rhs => lhs - rhs) s)
  | .Times => .ok (binArm (fun lhs rhs => lhs * rhs) s)
  | .Divide => .ok (binArm (fun lhs rhs => if rhs = 0 then (0 : ℚ) else lhs / rhs) s)
  | .Exp =>
    match s with
    | rhs :: lhs :: rest => if rhs = 0 then .fault else .ok (lhs / rhs :: rest)
    | _ => .ok []
  | .And => .ok (binArm (fun lhs rhs => (((round lhs).land (round rhs) : ℤ) : ℚ)) s)
  | .Or => .ok (binArm (fun lhs rhs => (((round lhs).lor (round rhs) : ℤ) : ℚ)) s)

/-- Mirror of `Calculator::compute`: run the tokens in order, returning
early on the `Duplicate` error or on a fault. -/
def compute : List Token → List ℚ → CompRes
  | [], s => .ok s
  | t :: ts, s =>
    match computeStep t s with
    | .ok s' => compute ts s'
    | .err s' => .err s'
    | .fault => .fault

/-- Mirror of Rust's `usize::checked_sub`. -/
def checked_sub (a b : Nat) : Option Nat :=
  if b ≤ a then some (a - b) else none

/-- The fold body of `Calculator::stack_exhaustion` (src/main.rs lines
231-245): simulate the net stack-depth effect of one token; `none` records
that a checked subtraction went negative. -/
def deltaStep (delta : Option Nat) (t : Token) : Option Nat :=
  match t with
  | .Number _ | .Duplicate => delta.map (· + 1)
  | .Plus | .Minus | .Times | .Divide | .Exp | .Or | .And =>
    (delta.bind (fun d => checked_sub d 2)).map (· + 1)
  | .Drop => delta.bind (fun d => checked_sub d 1)
  | .Empty => some 0

/-- Mirror of `Calculator::stack_exhaustion` (src/main.rs lines 227-252):
fold the depth simulation over the tokens starting from the current stack
length; the sequence is accepted iff the fold ends in `some`. -/
def stack_exhaustion (len : Nat) (ts : List Token) : Bool :=
  (List.foldl deltaStep (some len) ts).isSome

/-- Outcome of `Calculator::parse`: `Ok(())` with the resulting stack, an
`Err(TokenError)` together with the stack as the call left it (the Rust
method mutates `self.stack` in place), or a process fault. -/
inductive ParseRes where
  | ok : List ℚ → ParseRes
  | err : TokenError → List ℚ → ParseRes
  | fault : ParseRes
deriving DecidableEq, Repr

/-- Mirror of `Calculator::parse` (src/main.rs lines 133-150): lex the line
aborting on the first lexical error; check stack exhaustion against the
current stack depth, on failure reporting a whole-line span; run `compute`,
on failure reporting a whole-line span; finally normalize every stack
entry. -/
def parse (stack : List ℚ) (line : List Char) : ParseRes :=
  match collectTokens (lex line) with
  | .err e => .err e stack
  | .ok tokens =>
    if stack_exhaustion stack.length tokens then
      match compute tokens stack with
      | .ok s' => .ok (normalizeStack s')
      | .err s' => .err ⟨.incompleteExpr, (0, line.length)⟩ s'
      | .fault => .fault
    else .err ⟨.stackExhaustion, (0, line.length)⟩ stack

/-- Number tokens, as classified by the stack-depth conservation property. -/
def isNumber : Token → Bool
  | .Number _ => true
  | _ => false

/-- Binary-operator tokens (pop two, push one). -/
def isBinop : Token → Bool
  | .Plus | .Minus | .Times | .Divide | .Exp | .And | .Or => true
  | _ => false

/-- Count of `Number` tokens in a line. -/
def countNumber (ts : List Token) : Nat := (ts.filter isNumber).length

/-- Count of binary-operator tokens in a line. -/
def countBinop (ts : List Token) : Nat := (ts.filter isBinop).length

/-! ### Helper lemmas -/

/-- Every error produced by `from_str` has a span that is a valid sub-range
of the fragment. -/
theorem from_str_span {frag : List Char} {e : TokenError} (h : from_str frag = .err e) :
    e.span.1 ≤ e.span.2 ∧ e.span.2 ≤ frag.length := by
  cases frag with
  | nil =>
    simp only [from_str, LexRes.err.injEq] at h
    subst h
    simp
  | cons c rest =>
    unfold from_str unexpected_trailing_chars at h
    repeat' split at h
    all_goals cases h
    all_goals simp_all

/-- Every fragment emitted by `splitWSAux` ends within the line: its offset
plus its length is bounded by the running index plus the remaining input,
provided the accumulated fragment started at `start` and has been read
up to index `i`. -/
theorem splitWSAux_mem :
    ∀ (cs : List Char) (i start : Nat) (acc : List Char),
    start + acc.length ≤ i →
    ∀ p ∈ splitWSAux cs i start acc, p.1 + p.2.length ≤ i + cs.length := by
  intro cs
  induction cs with
  | nil =>
    intro i start acc hinv p hp
    simp only [splitWSAux] at hp
    split at hp
    · simp at hp
    · simp only [List.mem_singleton] at hp
      subst hp
      simpa using hinv
  | cons c rest ih =>
    intro i start acc hinv p hp
    simp only [splitWSAux] at hp
    split at hp
    · rcases List.mem_append.1 hp with hp1 | hp2
      · split at hp1
        · simp at hp1
        · simp only [List.mem_singleton] at hp1
          subst hp1
          simp only [List.length_reverse, List.length_cons]
          omega
      · have := ih (i + 1) (i + 1) [] (by simp) p hp2
        simp only [List.length_cons]
        omega
    · split at hp
      · have := ih (i + 1) i [c] (by simp) p hp
        simp only [List.length_cons]
        omega
      · have := ih (i + 1) start (c :: acc) (by simp; omega) p hp
        simp only [List.length_cons]
        omega

/-- When `collectTokens` reports an error, that error is one of the lexed
items. -/
theorem collectTokens_err_mem {l : List LexRes} {e : TokenError}
    (h : collectTokens l = .err e) : LexRes.err e ∈ l := by
  induction l with
  | nil => simp [collectTokens] at h
  | cons hd tl ih =>
    cases hd with
    | err e' =>
      simp only [collectTokens, ToksRes.err.injEq] at h
      subst h
      exact List.mem_cons_self _ _
    | ok t =>
      simp only [collectTokens] at h
      split at h
      · simp at h
      · next heq =>
        simp only [ToksRes.err.injEq] at h
        subst h
        exact List.mem_cons_of_mem _ (ih heq)

/-- Every lexical error of `lex` carries a valid sub-range of the line. -/
theorem lex_err_span {line : List Char} {te : TokenError}
    (h : LexRes.err te ∈ lex line) : te.span.1 ≤ te.span.2 ∧ te.span.2 ≤ line.length := by
  simp only [lex, List.mem_map] at h
  obtain ⟨p, hp, hmk⟩ := h
  have hbound := splitWSAux_mem line 0 0 [] (by simp) p hp
  split at hmk
  · simp at hmk
  · next e heq =>
    simp only [LexRes.err.injEq] at hmk
    subst hmk
    have hspan := from_str_span heq
    simp only []
    omega

/-- Every error returned by `parse` carries a valid sub-range of the line. -/
theorem parse_err_span {stack : List ℚ} {line : List Char} {te : TokenError} {s' : List ℚ}
    (h : parse stack line = .err te s') :
    te.span.1 ≤ te.span.2 ∧ te.span.2 ≤ line.length := by
  unfold parse at h
  split at h
  · next e heq =>
    cases h
    exact lex_err_span (collectTokens_err_mem heq)
  · split at h
    · split at h
      · cases h
      · cases h
        simp
      · cases h
    · cases h
      simp

/-- On a token other than the clear-all token, the depth simulation never
recovers from an earlier failure. -/
theorem deltaStep_none {t : Token} (h : t ≠ Token.Empty) : deltaStep none t = none := by
  cases t <;> first | rfl | exact absurd rfl h

/-- A failed depth simulation stays failed over any continuation that
contains no clear-all token. -/
theorem foldl_deltaStep_none {l : List Token} (h : Token.Empty ∉ l) :
    List.foldl deltaStep none l = none := by
  induction l with
  | nil => rfl
  | cons t ts ih =>
    have ht : t ≠ Token.Empty := by
      rintro rfl
      exact h (List.mem_cons_self _ _)
    rw [List.foldl_cons, deltaStep_none ht]
    exact ih (fun hm => h (List.mem_cons_of_mem _ hm))

/-- Splitting a line of pure whitespace yields no fragments. -/
theorem splitWSAux_ws : ∀ (cs : List Char), (∀ c ∈ cs, c.isWhitespace) →
    ∀ i st, splitWSAux cs i st [] = [] := by
  intro cs
  induction cs with
  | nil => intro _ i st; rfl
  | cons c rest ih =>
    intro h i st
    have hc : c.isWhitespace := h c (List.mem_cons_self _ _)
    simp only [splitWSAux, hc, if_true, List.isEmpty_nil, List.nil_append]
    exact ih (fun d hd => h d (List.mem_cons_of_mem _ hd)) (i + 1) (i + 1)

/-- The final normalization pass preserves the stack (normalization of an
always-reduced rational is the identity on values). -/
theorem normalizeStack_id (s : List ℚ) : normalizeStack s = s := by
  unfold normalizeStack
  have h : normalizeRat = id := rfl
  rw [h, List.map_id]

/-- Characterization of the `Number` classifier. -/
theorem isNumber_iff {t : Token} : isNumber t = true ↔ ∃ q, t = .Number q := by
  cases t <;> simp [isNumber]

/-- A binary operator is not a number token. -/
theorem isNumber_of_binop {t : Token} (h : isBinop t = true) : isNumber t = false := by
  cases t <;> simp_all [isNumber, isBinop]

/-- Lines of numbers and binary operators contain no clear-all token. -/
theorem nb_no_empty {ts : List Token}
    (h : ts.all (fun t => isNumber t || isBinop t) = true) : Token.Empty ∉ ts := by
  intro hm
  rw [List.all_eq_true] at h
  have := h _ hm
  simp [isNumber, isBinop] at this

/-- The depth simulation of any binary operator is the checked subtraction
of two followed by adding one back. -/
theorem delta_binop {op : Token} (hbin : isBinop op = true) (n : Nat) :
    deltaStep (some n) op = (checked_sub n 2).map (· + 1) := by
  cases op <;> first | rfl | simp [isBinop] at hbin

/-- A binary operator executing on a stack of depth at least two that leads
to a normal result replaces the top two entries by a single value. -/
theorem binop_compute {t : Token} (hbin : isBinop t = true) {ts : List Token}
    {r l : ℚ} {rest' : List ℚ} {s' : List ℚ}
    (h : compute (t :: ts) (r :: l :: rest') = .ok s') :
    ∃ v, compute ts (v :: rest') = .ok s' := by
  cases t <;> simp only [isBinop, Bool.false_eq_true] at hbin
  all_goals simp only [compute, computeStep, binArm] at h
  case Plus => exact ⟨_, h⟩
  case Minus => exact ⟨_, h⟩
  case Times => exact ⟨_, h⟩
  case Divide => exact ⟨_, h⟩
  case And => exact ⟨_, h⟩
  case Or => exact ⟨_, h⟩
  case Exp =>
    by_cases hr : r = 0
    · simp [hr] at h
    · simp only [hr, if_false] at h
      exact ⟨_, h⟩

/-- Core depth-conservation induction: on a line of numbers and binary
operators, if the depth simulation accepts with final simulated depth `m`
and the evaluation returns normally, the resulting stack has length `m`,
which equals the initial depth plus the number count minus the operator
count. -/
theorem nb_compute : ∀ (ts : List Token) (s : List ℚ) (m : Nat),
    ts.all (fun t => isNumber t || isBinop t) = true →
    List.foldl deltaStep (some s.length) ts = some m →
    ∀ s', compute ts s = .ok s' →
    s'.length = m ∧ (m : ℤ) = (s.length : ℤ) + countNumber ts - countBinop ts := by
  intro ts
  induction ts with
  | nil =>
    intro s m hall hfold s' hcomp
    simp only [List.foldl_nil, Option.some.injEq] at hfold
    simp only [compute, CompRes.ok.injEq] at hcomp
    subst hfold
    subst hcomp
    simp [countNumber, countBinop]
  | cons t rest ih =>
    intro s m hall hfold s' hcomp
    simp only [List.all_cons, Bool.and_eq_true] at hall
    obtain ⟨ht, hrest⟩ := hall
    rw [List.foldl_cons] at hfold
    rw [Bool.or_eq_true] at ht
    rcases ht with hnum | hbin
    · obtain ⟨q, rfl⟩ := isNumber_iff.1 hnum
      have hstep : deltaStep (some s.length) (.Number q) = some ((q :: s).length) := by
        simp [deltaStep]
      rw [hstep] at hfold
      have hcomp' : compute rest (q :: s) = .ok s' := by
        simpa [compute, computeStep] using hcomp
      obtain ⟨h1, h2⟩ := ih (q :: s) m hrest hfold s' hcomp'
      refine ⟨h1, ?_⟩
      have hcn : countNumber (Token.Number q :: rest) = countNumber rest + 1 := by
        simp [countNumber, List.filter_cons, isNumber]
      have hcb : countBinop (Token.Number q :: rest) = countBinop rest := by
        simp [countBinop, List.filter_cons, isBinop]
      rw [hcn, hcb]
      simp only [List.length_cons] at h2
      push_cast at h2 ⊢
      omega
    · rw [delta_binop hbin] at hfold
      by_cases hn : 2 ≤ s.length
      · obtain ⟨r, l, rest', rfl⟩ : ∃ r l rest', s = r :: l :: rest' := by
          cases s with
          | nil => simp at hn
          | cons r s1 =>
            cases s1 with
            | nil => simp at hn
            | cons l rest' => exact ⟨r, l, rest', rfl⟩
        have hcs : checked_sub (r :: l :: rest').length 2 = some rest'.length := by
          simp [checked_sub]
        rw [hcs] at hfold
        simp only [Option.map_some'] at hfold
        obtain ⟨v, hv⟩ := binop_compute hbin hcomp
        have hfold' : List.foldl deltaStep (some ((v :: rest').length)) rest = some m := by
          simpa using hfold
        obtain ⟨h1, h2⟩ := ih (v :: rest') m hrest hfold' s' hv
        refine ⟨h1, ?_⟩
        have hcn : countNumber (t :: rest) = countNumber rest := by
          simp [countNumber, List.filter_cons, isNumber_of_binop hbin]
        have hcb : countBinop (t :: rest) = countBinop rest + 1 := by
          simp [countBinop, List.filter_cons, hbin]
        rw [hcn, hcb]
        simp only [List.length_cons] at h2 ⊢
        push_cast at h2 ⊢
        omega
      · have hcs : checked_sub s.length 2 = none := by
          simp only [checked_sub, if_neg hn]
        rw [hcs] at hfold
        simp only [Option.map_none'] at hfold
        rw [foldl_deltaStep_none (nb_no_empty hrest)] at hfold
        cases hfold

/-- Inversion of a successful `parse`: a successful line lexed to some token
list, passed verification, computed normally, and was then normalized. -/
theorem parse_ok_inversion {stack : List ℚ} {line : List Char} {s' : List ℚ}
    (h : parse stack line = .ok s') :
    ∃ ts, collectTokens (lex line) = .ok ts ∧
      stack_exhaustion stack.length ts = true ∧
      ∃ s'', compute ts stack = .ok s'' ∧ s' = normalizeStack s'' := by
  unfold parse at h
  split at h
  · cases h
  · next ts heq =>
    split at h
    · next hex =>
      split at h
      · next s'' hcomp =>
        cases h
        exact ⟨ts, heq, hex, s'', hcomp, rfl⟩
      · cases h
      · cases h
    · cases h

/-! ### Claim theorems -/

/-- Claim C1 (code bug): `parse` is claimed to leave the stack unchanged
whenever it returns an error, but on the prior stack `[1]` the line `"! <"`
passes verification (the verifier simulates Drop then Duplicate as
1 → 0 → 1 without requiring a nonempty stack for Duplicate), so `compute`
runs, executes the Drop, and then the Duplicate finds an empty stack and
errors: `parse` returns the evaluation-time error while the stack has
changed from `[1]` to `[]` — contradicting the source's own comment that
the pre-check prevents a half-evaluated expression. -/
theorem C1_error_mutates_stack :
    parse [(1 : ℚ)] ['!', ' ', '<'] = .err ⟨.incompleteExpr, (0, 3)⟩ [] ∧
    ([] : List ℚ) ≠ [(1 : ℚ)] :=
  ⟨by decide, by decide⟩

/-- Claim C2 (code bug): the verifier accepts the single token `<`
(Duplicate) against an empty stack because its fold counts Duplicate as a
plain +1 without checking that one element is available, yet executing it
pops the empty stack and takes the Duplicate error branch — an
evaluation-time underflow branch is reachable after verification passes. -/
theorem C2_duplicate_underflow_reachable :
    stack_exhaustion 0 [Token.Duplicate] = true ∧
    compute [Token.Duplicate] [] = .err [] ∧
    parse [] ['<'] = .err ⟨.incompleteExpr, (0, 1)⟩ [] :=
  ⟨by decide, by decide, by decide⟩

/-- Claim C3 counterexample: on the empty stack the line `"+ %"` lexes to
`[Plus, Empty]`; after the first token the left-to-right depth simulation
has already failed its checked subtraction, yet the clear-all arm of the
fold resets the accumulator to `some 0` regardless, verification passes,
the evaluator runs and the line succeeds — it is not rejected, contrary to
the claim that any failed checked subtraction rejects the whole line. -/
theorem C3_clear_all_masks_underflow :
    collectTokens (lex ['+', ' ', '%']) = .ok [Token.Plus, Token.Empty] ∧
    List.foldl deltaStep (some (([] : List ℚ).length))
      (List.take 1 [Token.Plus, Token.Empty]) = none ∧
    parse [] ['+', ' ', '%'] = .ok [] :=
  ⟨by decide, by decide, by decide⟩

/-- Claim C3 (amended): if the left-to-right depth simulation fails a
checked subtraction at some point and no clear-all (`%`) token occurs
later in the line, the whole line is rejected with a stack-exhaustion
error spanning the entire line and the stack is left untouched (the
evaluator does not run); in particular `"+"` on the empty stack fails
leaving the stack empty, and `"5 + +"` fails. -/
theorem C3_underflow_rejected :
    (∀ (stack : List ℚ) (line : List Char) (ts : List Token) (i : Nat),
      collectTokens (lex line) = .ok ts →
      List.foldl deltaStep (some stack.length) (ts.take i) = none →
      Token.Empty ∉ ts.drop i →
      parse stack line = .err ⟨.stackExhaustion, (0, line.length)⟩ stack) ∧
    parse [] ['+'] = .err ⟨.stackExhaustion, (0, 1)⟩ [] ∧
    parse [] ['5', ' ', '+', ' ', '+'] = .err ⟨.stackExhaustion, (0, 5)⟩ [] := by
  have main : ∀ (stack : List ℚ) (line : List Char) (ts : List Token) (i : Nat),
      collectTokens (lex line) = .ok ts →
      List.foldl deltaStep (some stack.length) (ts.take i) = none →
      Token.Empty ∉ ts.drop i →
      parse stack line = .err ⟨.stackExhaustion, (0, line.length)⟩ stack := by
    intro stack line ts i hlex htake hdrop
    have hfold : List.foldl deltaStep (some stack.length) ts = none := by
      conv_lhs => rw [← List.take_append_drop i ts]
      rw [List.foldl_append, htake]
      exact foldl_deltaStep_none hdrop
    have hex : stack_exhaustion stack.length ts = false := by
      simp [stack_exhaustion, hfold]
    unfold parse
    rw [hlex]
    simp [hex]
  exact ⟨main,
    main [] ['+'] [Token.Plus] 1 (by decide) (by decide) (by decide),
    main [] ['5', ' ', '+', ' ', '+'] [Token.Number 5, Token.Plus, Token.Plus] 2
      (by decide) (by decide) (by decide)⟩

/-- Witness for claim C3: the single minus operator on the empty stack is
rejected by verification with a whole-line span and an unchanged stack. -/
theorem C3_underflow_rejected_witness :
    parse [] ['-'] = .err ⟨.stackExhaustion, (0, 1)⟩ [] :=
  C3_underflow_rejected.1 [] ['-'] [Token.Minus] 1 (by decide) (by decide) (by decide)

/-- Claim C4 counterexample: with the stack `[0, 1]` (right operand 0 on
top), a `Divide` token pushes the rational zero and returns normally while
an `Exp` token divides by zero — a fault, not the same resulting stack, so
Exp does not alias Divide when the right operand is zero. -/
theorem C4_exp_divide_differ_at_zero :
    compute [Token.Exp] [(0 : ℚ), (1 : ℚ)] = .fault ∧
    compute [Token.Divide] [(0 : ℚ), (1 : ℚ)] = .ok [(0 : ℚ)] ∧
    CompRes.fault ≠ CompRes.ok [(0 : ℚ)] :=
  ⟨by decide, by decide, by decide⟩

/-- Claim C4 (amended): whenever the right operand on top of the stack is
nonzero, executing an `Exp` token is exactly the same computation as
executing a `Divide` token — the exponent operator performs exact
division; when the right operand is zero the two differ (Divide pushes the
rational zero, Exp faults on the unguarded division). -/
theorem C4_exp_behaves_as_divide (ts : List Token) (rhs lhs : ℚ) (rest : List ℚ)
    (h : rhs ≠ 0) :
    compute (Token.Exp :: ts) (rhs :: lhs :: rest) =
      compute (Token.Divide :: ts) (rhs :: lhs :: rest) := by
  simp [compute, computeStep, binArm, h]

/-- Witness for claim C4: right operand 2, left operand 6. -/
theorem C4_exp_behaves_as_divide_witness :
    compute [Token.Exp] [(2 : ℚ), (6 : ℚ)] = compute [Token.Divide] [(2 : ℚ), (6 : ℚ)] :=
  C4_exp_behaves_as_divide [] 2 6 [] (by decide)

/-- Claim C5: whenever a `Divide` token executes with the popped right-hand
operand exactly zero, the rational zero 0/1 is pushed instead of dividing
and evaluation continues normally (no error); concretely `"4 0 /"` on the
empty stack succeeds with final stack exactly `[0]`. -/
theorem C5_divide_by_zero_pushes_zero (ts : List Token) (lhs : ℚ) (rest : List ℚ) :
    compute (Token.Divide :: ts) ((0 : ℚ) :: lhs :: rest) = compute ts ((0 : ℚ) :: rest) ∧
    (0 : ℚ).num = 0 ∧ (0 : ℚ).den = 1 ∧
    parse [] ['4', ' ', '0', ' ', '/'] = .ok [(0 : ℚ)] :=
  ⟨by simp [compute, computeStep, binArm], by decide, by decide, by decide⟩

/-- Claim C6 counterexample: the line `"1 0 ^"` consists only of number
and binary-operator tokens and passes verification, but its evaluation
hits the unguarded division by zero in the `Exp` arm and faults, so there
is no post-evaluation stack at all — in particular not one of length
pre-length + #Number − #BinaryOp. -/
theorem C6_exp_fault_breaks_conservation :
    collectTokens (lex ['1', ' ', '0', ' ', '^']) =
      .ok [Token.Number 1, Token.Number 0, Token.Exp] ∧
    ([Token.Number (1 : ℚ), Token.Number 0, Token.Exp].all
      (fun t => isNumber t || isBinop t)) = true ∧
    stack_exhaustion 0 [Token.Number (1 : ℚ), Token.Number 0, Token.Exp] = true ∧
    parse [] ['1', ' ', '0', ' ', '^'] = .fault :=
  ⟨by decide, by decide, by decide, by decide⟩

/-- Claim C6 (amended): for every prior stack and every line whose tokens
are only numbers and binary operators, if the line passes verification and
its evaluation completes without the Exp division-by-zero fault (i.e.
`parse` returns `ok`), the post-evaluation stack length equals the prior
length plus the number of `Number` tokens minus the number of
binary-operator tokens. -/
theorem C6_depth_conservation (stack : List ℚ) (line : List Char) (ts : List Token)
    (s' : List ℚ)
    (hlex : collectTokens (lex line) = .ok ts)
    (hnb : ts.all (fun t => isNumber t || isBinop t) = true)
    (hok : parse stack line = .ok s') :
    (s'.length : ℤ) = (stack.length : ℤ) + countNumber ts - countBinop ts := by
  obtain ⟨ts2, heq, hex, s'', hcomp, hnorm⟩ := parse_ok_inversion hok
  rw [hlex] at heq
  cases heq
  rw [stack_exhaustion, Option.isSome_iff_exists] at hex
  obtain ⟨m, hm⟩ := hex
  obtain ⟨h1, h2⟩ := nb_compute ts stack m hnb hm s'' hcomp
  rw [hnorm, normalizeStack_id, h1]
  exact h2

/-- Witness for claim C6: the line `"4 0 /"` on the empty stack leaves one
entry, and 1 = 0 + 2 numbers − 1 operator. -/
theorem C6_depth_conservation_witness :
    (([(0 : ℚ)].length : ℤ)) = (([] : List ℚ).length : ℤ) +
      countNumber [Token.Number 4, Token.Number 0, Token.Divide] -
      countBinop [Token.Number 4, Token.Number 0, Token.Divide] :=
  C6_depth_conservation [] ['4', ' ', '0', ' ', '/']
    [Token.Number 4, Token.Number 0, Token.Divide] [(0 : ℚ)]
    (by decide) (by decide) (by decide)

/-- Claim C7: every `TokenError` produced by evaluating a line carries a
span that is a valid sub-range of that line (start ≤ end ≤ line length;
starts are naturals so 0 ≤ start holds by type), with fragment-relative
lexer spans remapped to offsets in the original line; in particular lexing
`"3 $ 5"` yields a lexical error whose span `(2, 3)` exactly covers the
`$` character's byte offset. -/
theorem C7_span_validity :
    (∀ (stack : List ℚ) (line : List Char) (te : TokenError) (s' : List ℚ),
      parse stack line = .err te s' →
      te.span.1 ≤ te.span.2 ∧ te.span.2 ≤ line.length) ∧
    lex ['3', ' ', '$', ' ', '5'] =
      [.ok (.Number 3), .err ⟨.unexpectedToken, (2, 3)⟩, .ok (.Number 5)] :=
  ⟨fun _ _ _ _ h => parse_err_span h, by decide⟩

/-- Witness for claim C7: the error that `"+"` produces on the empty stack
has a valid span. -/
theorem C7_span_validity_witness :
    (0, 1).1 ≤ (0, 1).2 ∧ (0, 1).2 ≤ (['+'] : List Char).length :=
  C7_span_validity.1 [] ['+'] ⟨.stackExhaustion, (0, 1)⟩ [] (by decide)

/-- Claim C8: executing `And` (resp. `Or`) pops rhs then lhs, rounds each
operand to the nearest integer, takes the bitwise AND (resp. OR) of those
integers, and pushes the result as an integer-valued rational (denominator
one); concretely `"0xFF 0x1 &"` on the empty stack yields `[1]` and
`"0b101 0b010 |"` yields `[7]`. -/
theorem C8_bitwise_semantics (ts : List Token) (rhs lhs : ℚ) (rest : List ℚ) :
    compute (Token.And :: ts) (rhs :: lhs :: rest) =
      compute ts ((((round lhs).land (round rhs) : ℤ) : ℚ) :: rest) ∧
    compute (Token.Or :: ts) (rhs :: lhs :: rest) =
      compute ts ((((round lhs).lor (round rhs) : ℤ) : ℚ) :: rest) ∧
    (((round lhs).land (round rhs) : ℤ) : ℚ).den = 1 ∧
    (((round lhs).lor (round rhs) : ℤ) : ℚ).den = 1 ∧
    parse [] ['0', 'x', 'F', 'F', ' ', '0', 'x', '1', ' ', '&'] = .ok [(1 : ℚ)] ∧
    parse [] ['0', 'b', '1', '0', '1', ' ', '0', 'b', '0', '1', '0', ' ', '|'] = .ok [(7 : ℚ)] := by
  refine ⟨by simp [compute, computeStep, binArm], by simp [compute, computeStep, binArm],
    Rat.den_intCast _, Rat.den_intCast _, ?_, ?_⟩
  · have h1 : collectTokens (lex ['0', 'x', 'F', 'F', ' ', '0', 'x', '1', ' ', '&']) =
        .ok [.Number ((255 : ℤ) : ℚ), .Number ((1 : ℤ) : ℚ), .And] := by decide
    have hland : Int.land 255 1 = 1 := by decide
    simp [parse, h1, compute, computeStep, binArm, normalizeStack, normalizeRat,
      round_intCast, hland]
    decide
  · have h1 : collectTokens (lex ['0', 'b', '1', '0', '1', ' ', '0', 'b', '0', '1', '0', ' ', '|']) =
        .ok [.Number ((5 : ℤ) : ℚ), .Number ((2 : ℤ) : ℚ), .Or] := by decide
    have hlor : Int.lor 5 2 = 7 := by decide
    simp [parse, h1, compute, computeStep, binArm, normalizeStack, normalizeRat,
      round_intCast, hlor]
    decide

/-- Claim C9: each of the ten single-character operator fragments lexes to
its token (`%` clear-all, `!` drop, `<` duplicate, `^` exponent, `/`
divide, `*` times, `+` plus, `-` minus, `|` or, `&` and), and any longer
fragment starting with one of these characters fails with a
trailing-characters error whose span `(1, fragment length)` covers the
unexpected suffix. -/
theorem C9_lexer_operator_recognition :
    from_str ['%'] = .ok .Empty ∧
    from_str ['!'] = .ok .Drop ∧
    from_str ['<'] = .ok .Duplicate ∧
    from_str ['^'] = .ok .Exp ∧
    from_str ['/'] = .ok .Divide ∧
    from_str ['*'] = .ok .Times ∧
    from_str ['+'] = .ok .Plus ∧
    from_str ['-'] = .ok .Minus ∧
    from_str ['|'] = .ok .Or ∧
    from_str ['&'] = .ok .And ∧
    ∀ (c : Char) (rest : List Char),
      c ∈ ['%', '!', '<', '^', '/', '*', '+', '-', '|', '&'] → rest ≠ [] →
      from_str (c :: rest) = .err ⟨.unexpectedTrailing, (1, rest.length + 1)⟩ := by
  refine ⟨by decide, by decide, by decide, by decide, by decide, by decide, by decide,
    by decide, by decide, by decide, ?_⟩
  intro c rest hc hrest
  have hlen : ¬ (rest.length + 1 = 1) := by
    cases rest with
    | nil => exact absurd rfl hrest
    | cons d tl => simp
  obtain ⟨t, hop⟩ : ∃ t, opToken c = some t := by
    fin_cases hc <;> exact ⟨_, rfl⟩
  simp only [from_str]
  rw [hop]
  simp only [unexpected_trailing_chars, List.length_cons, if_neg hlen]

/-- Witness for claim C9: the two-character fragment `"++"` fails with a
trailing-characters error spanning its second byte. -/
theorem C9_lexer_operator_recognition_witness :
    from_str ['+', '+'] = .err ⟨.unexpectedTrailing, (1, 2)⟩ :=
  C9_lexer_operator_recognition.2.2.2.2.2.2.2.2.2.2 '+' ['+'] (by decide) (by decide)

/-- Claim C10: on a line containing no non-whitespace characters (the empty
line included), `parse` succeeds and returns the stack unchanged, every
entry keeping its rational value. -/
theorem C10_blank_line_noop (stack : List ℚ) (line : List Char)
    (h : ∀ c ∈ line, c.isWhitespace) :
    parse stack line = .ok stack := by
  have hsplit : splitWS line = [] := splitWSAux_ws line h 0 0
  have hlex : lex line = [] := by simp [lex, hsplit]
  unfold parse
  rw [hlex]
  simp [collectTokens, stack_exhaustion, compute, normalizeStack_id]

/-- Witness for claim C10: a single-space line on the stack `[5]`. -/
theorem C10_blank_line_noop_witness : parse [(5 : ℚ)] [' '] = .ok [(5 : ℚ)] :=
  C10_blank_line_noop [(5 : ℚ)] [' '] (by decide)
